import Mathlib

/-!
Verification of the `py-nvme` repository against its specification.

The visible source of the repository is the single file `setup.py` (12
lines), a setuptools packaging script for a Cython extension.  That script
is embedded faithfully below.  The command/queue engine the specification
describes (`nvme.pyx`) is not part of the visible source tree; where a
claim is about the engine, the relevant operation is modelled from the
specification's words, and the corresponding definition says so in its
doc comment.
-/

namespace PyNvme

/-! ## Embedding of the repository's visible source (`src/setup.py`) -/

/-- A Python runtime value, as far as `setup.py` needs: string literals,
list literals, and function-call expressions (used for the
`cythonize('nvme.pyx')` argument of `ext_modules`). -/
inductive PyVal where
  | str (s : String)
  | list (xs : List PyVal)
  | call (fn : String) (args : List PyVal)

/-- A top-level Python statement, as far as `setup.py` needs: a
`from M import a, b` statement, a `def`/`class` binding a name, or an
expression statement consisting of a call with keyword arguments. -/
inductive PyStmt where
  | importFrom (module : String) (names : List String)
  | defn (name : String)
  | exprCall (fn : String) (kwargs : List (String × PyVal))

/-- The `setup(...)` invocation of `src/setup.py`, lines 4-12, keyword
arguments in source order. -/
def setupCall : PyStmt :=
  .exprCall "setup"
    [ ("name", .str "nvme"),
      ("version", .str "0.0.2"),
      ("setup_requires", .list [.str "setuptools>=45.0", .str "Cython"]),
      ("ext_modules", .call "cythonize" [.str "nvme.pyx"]) ]

/-- The full statement list of `src/setup.py` (its 12 lines): two imports
followed by the single `setup` call. -/
def setupPy : List PyStmt :=
  [ .importFrom "setuptools" ["setup"],
    .importFrom "Cython.Build" ["cythonize"],
    setupCall ]

/-- The files present in the repository's visible source tree. -/
def repoFiles : List String := ["setup.py"]

/-- Names bound by `def`/`class` statements in a statement list. -/
def definedNames (stmts : List PyStmt) : List String :=
  stmts.filterMap fun s =>
    match s with
    | .defn n => some n
    | _ => none

/-- Top-level call statements of a statement list. -/
def topLevelCalls (stmts : List PyStmt) : List PyStmt :=
  stmts.filter fun s =>
    match s with
    | .exprCall _ _ => true
    | _ => false

/-- Look up a keyword argument of a call statement. -/
def kwarg (s : PyStmt) (k : String) : Option PyVal :=
  match s with
  | .exprCall _ kwargs => (kwargs.find? (fun p => p.1 = k)).map Prod.snd
  | _ => none

/-- The engine operations named in the specification (sections 4.1-4.6):
descriptor building, buffer management, queue-pair operations, reaping,
waiting, dispatching, and status decoding. -/
def specOperations : List String :=
  [ "build", "acquire", "release", "submit", "poll_completions",
    "release_command_id", "reap", "wait", "decode",
    "identify_namespace", "get_log_page", "get_features",
    "format_namespace" ]

/-- Whether a statement list contains a `def`/`class` binding `n`. -/
def definesName (stmts : List PyStmt) (n : String) : Bool :=
  (definedNames stmts).contains n

/-- Cythonize requires its source file to exist: it can produce a list of
extension modules only when the named `.pyx` file is among the files of
the tree it runs in.  Modelled from the behaviour the claim relies on:
the external Cython build tool fails when its input file is absent. -/
def cythonizeResult (files : List String) (src : String) : Option (List String) :=
  if src ∈ files then some [src] else none

/-! ## The engine's error taxonomy (spec section 7)

Modelled from the spec: the engine code (`nvme.pyx`) is absent from the
visible source tree, so the error kinds are taken from the spec's closed
taxonomy. -/

/-- The closed error taxonomy of spec section 7: caller-side errors plus
the Status-Decoder kinds for device-reported failures.
`UnknownDeviceError` carries the raw status-code-type / status-code pair. -/
inductive ErrorKind where
  | InvalidParameters
  | QueueFull
  | OutOfMemory
  | BufferStillInUse
  | CommandTimeout
  | UnexpectedCompletion
  | MediaError
  | CommandAborted
  | InvalidNamespace
  | CapacityExceeded
  | UnknownDeviceError (sct : Nat) (sc : Nat)
  deriving DecidableEq, Repr

/-! ## Queue Pair (spec section 4.3)

Modelled from the spec: `nvme.pyx` is absent, so the Queue Pair state and
its `submit` / completion-ring operations follow spec sections 3 and 4.3
(submission tail, completion head, expected phase bit, in-flight command
identifiers, one slot reserved to disambiguate full from empty). -/

/-- A completion queue entry (spec section 3): command-specific result,
command identifier, phase bit, and the status pair
(status-code-type, status-code). -/
structure CompletionEntry where
  result : Nat
  cid : Nat
  phase : Bool
  sct : Nat
  sc : Nat
  deriving DecidableEq, Repr

/-- Queue Pair state (spec section 3): configured depth, fresh
command-identifier counter, completion head index, expected phase bit,
and the identifiers of commands currently outstanding. -/
structure QueuePair where
  depth : Nat
  nextId : Nat
  compHead : Nat
  phase : Bool
  inflight : List Nat
  deriving DecidableEq, Repr

/-- A Queue Pair at engine initialization: configured depth, empty ring
cursors, expected phase 1, nothing outstanding. -/
def QueuePair.init (d : Nat) : QueuePair :=
  { depth := d, nextId := 0, compHead := 0, phase := true, inflight := [] }

/-- Modelled from the spec (section 4.3): `submit` assigns a fresh command
identifier and records it outstanding; it fails with `QueueFull` if the
outstanding count equals depth − 1 (one slot reserved to disambiguate
full from empty). -/
def QueuePair.submit (qp : QueuePair) : Except ErrorKind (Nat × QueuePair) :=
  if qp.inflight.length = qp.depth - 1 then .error .QueueFull
  else .ok (qp.nextId,
    { qp with nextId := qp.nextId + 1, inflight := qp.nextId :: qp.inflight })

/-- One operation of a submit/poll history on a Queue Pair: a `submit`
call, or a `poll_completions` call in which the device has completed the
commands whose identifiers are listed in `done`. -/
inductive QpOp where
  | submitOp
  | pollOp (done : List Nat)

/-- Modelled from the spec: the effect of one history operation on the
Queue Pair.  A failing `submit` (QueueFull) leaves the state unchanged;
a poll removes the identifiers the device completed from the in-flight
table (spec section 4.3, `release_command_id`). -/
def QueuePair.step (qp : QueuePair) : QpOp → QueuePair
  | .submitOp =>
      match qp.submit with
      | .ok (_, qp') => qp'
      | .error _ => qp
  | .pollOp done => { qp with inflight := qp.inflight.filter fun c => !(done.contains c) }

/-- Run a sequence of submit/poll operations from a starting state. -/
def QueuePair.run (qp : QueuePair) (ops : List QpOp) : QueuePair :=
  ops.foldl QueuePair.step qp

/-- Modelled from the spec (section 4.3): advancing the completion head
after reaping one entry; on wraparound of the completion ring the
expected phase bit toggles. -/
def QueuePair.advanceHead (qp : QueuePair) : QueuePair :=
  if qp.compHead + 1 = qp.depth then { qp with compHead := 0, phase := !qp.phase }
  else { qp with compHead := qp.compHead + 1 }

/-- Reap `n` consecutive completion-ring entries, returning the ring
indices reaped in order, the number of phase-bit toggles performed, and
the final Queue Pair state. -/
def QueuePair.traverse : QueuePair → Nat → List Nat × Nat × QueuePair
  | qp, 0 => ([], 0, qp)
  | qp, n + 1 =>
      let out := qp.advanceHead.traverse n
      (qp.compHead :: out.1,
        (if qp.compHead + 1 = qp.depth then 1 else 0) + out.2.1,
        out.2.2)

/-- Modelled from the spec (section 4.3): `poll_completions` inspects
completion ring entries starting at the current head; an entry is new iff
its phase bit matches the Queue Pair's expected phase; polling stops at
the first entry whose phase bit does not match.  Each new entry advances
the completion head, toggling the expected phase on ring wraparound.
Fuelled by the ring depth, since at most `depth` entries can be new. -/
def QueuePair.pollAux (ring : Nat → CompletionEntry) :
    Nat → QueuePair → List CompletionEntry × QueuePair
  | 0, qp => ([], qp)
  | n + 1, qp =>
      let e := ring qp.compHead
      if e.phase = qp.phase then
        let out := QueuePair.pollAux ring n qp.advanceHead
        (e :: out.1, out.2)
      else ([], qp)

/-- Modelled from the spec (section 4.3): `poll_completions` over a
completion ring, read through `ring` as a map from ring index to the
entry the device wrote there. -/
def QueuePair.poll_completions (qp : QueuePair) (ring : Nat → CompletionEntry) :
    List CompletionEntry × QueuePair :=
  QueuePair.pollAux ring qp.depth qp

/-- The ring entry `i` positions past the current completion head. -/
def QueuePair.entryAt (qp : QueuePair) (ring : Nat → CompletionEntry) (i : Nat) :
    CompletionEntry :=
  ring ((qp.compHead + i) % qp.depth)

/-- The phase bit expected of the entry `i` positions past the current
completion head: the current expected phase until the ring wraps, its
negation afterwards. -/
def QueuePair.expPhase (qp : QueuePair) (i : Nat) : Bool :=
  if qp.compHead + i < qp.depth then qp.phase else !qp.phase

/-! ## Status Decoder (spec section 4.6)

Modelled from the spec: the decoder splits the status field into
status-code-type and status-code and maps known pairs to the closed
taxonomy; the concrete code points follow the NVMe generic and media
status codes the spec names. -/

/-- Status-code-type: generic command status. -/
def sctGeneric : Nat := 0

/-- Status-code-type: media and data-integrity errors. -/
def sctMedia : Nat := 2

/-- Generic status code: successful completion. -/
def scSuccess : Nat := 0

/-- Generic status code: command abort requested. -/
def scAbortRequested : Nat := 7

/-- Generic status code: namespace not found. -/
def scNamespaceNotFound : Nat := 11

/-- Generic status code: capacity exceeded. -/
def scCapacityExceeded : Nat := 129

/-- Media status code: unrecovered read error. -/
def scUnrecoveredReadError : Nat := 129

/-- The Status Decoder's outcome: success, or one device-reported error
kind from the closed taxonomy. -/
inductive Outcome where
  | success
  | failure (e : ErrorKind)
  deriving DecidableEq, Repr

/-- Modelled from the spec (section 4.6): `decode` maps the known
(status-code-type, status-code) pairs to the closed taxonomy and every
unknown combination to `UnknownDeviceError` carrying the raw pair. -/
def decodeStatus (sct sc : Nat) : Outcome :=
  if sct = sctGeneric ∧ sc = scSuccess then .success
  else if sct = sctGeneric ∧ sc = scNamespaceNotFound then .failure .InvalidNamespace
  else if sct = sctGeneric ∧ sc = scAbortRequested then .failure .CommandAborted
  else if sct = sctGeneric ∧ sc = scCapacityExceeded then .failure .CapacityExceeded
  else if sct = sctMedia ∧ sc = scUnrecoveredReadError then .failure .MediaError
  else .failure (.UnknownDeviceError sct sc)

/-- The (status-code-type, status-code) pairs of the decoder's known
mapping. -/
def knownStatusPairs : List (Nat × Nat) :=
  [(sctGeneric, scSuccess), (sctGeneric, scNamespaceNotFound),
   (sctGeneric, scAbortRequested), (sctGeneric, scCapacityExceeded),
   (sctMedia, scUnrecoveredReadError)]

/-! ## Command Descriptor Builder (spec section 4.1)

Modelled from the spec: `nvme.pyx` is absent, so the builder's
per-opcode validation follows spec sections 4.1 and 6. -/

/-- Opcodes of the command-set surface the Dispatcher exposes
(spec section 6). -/
inductive Opcode where
  | identify
  | getLogPage
  | getFeatures
  | formatNvm
  | read
  | write
  | flush
  deriving DecidableEq, Repr

/-- Names of the command-specific fields the builder validates. -/
inductive FieldName where
  | cns
  | logId
  | logOffset
  | featureId
  | lbaFormat
  | startLba
  | numBlocks
  deriving DecidableEq, Repr

/-- Command-specific fields supplied to the builder; a field the caller
did not supply is `none`. -/
structure SpecificFields where
  cns : Option Nat := none
  logId : Option Nat := none
  logOffset : Option Nat := none
  featureId : Option Nat := none
  lbaFormat : Option Nat := none
  startLba : Option Nat := none
  numBlocks : Option Nat := none
  deriving DecidableEq, Repr

/-- Field lookup by name. -/
def SpecificFields.get (sf : SpecificFields) : FieldName → Option Nat
  | .cns => sf.cns
  | .logId => sf.logId
  | .logOffset => sf.logOffset
  | .featureId => sf.featureId
  | .lbaFormat => sf.lbaFormat
  | .startLba => sf.startLba
  | .numBlocks => sf.numBlocks

/-- Modelled from the spec (sections 4.1 and 6): the required
command-specific fields per opcode, each with the exclusive upper bound
of its valid range (Identify requires a CNS sub-selector, Get Log Page a
log identifier and offset, and so on, with the NVMe field widths). -/
def requiredFields : Opcode → List (FieldName × Nat)
  | .identify => [(.cns, 256)]
  | .getLogPage => [(.logId, 256), (.logOffset, 2 ^ 64)]
  | .getFeatures => [(.featureId, 256)]
  | .formatNvm => [(.lbaFormat, 16)]
  | .read => [(.startLba, 2 ^ 64), (.numBlocks, 2 ^ 16)]
  | .write => [(.startLba, 2 ^ 64), (.numBlocks, 2 ^ 16)]
  | .flush => []

/-- A required field is satisfied when it is present and within its
valid range. -/
def fieldOk (sf : SpecificFields) (r : FieldName × Nat) : Bool :=
  match sf.get r.1 with
  | some v => decide (v < r.2)
  | none => false

/-- A command descriptor (spec section 3): opcode, namespace identifier,
data pointer, and the validated command-specific fields.  The command
identifier is assigned at submission, not by the builder. -/
structure CommandDescriptor where
  opcode : Opcode
  nsid : Nat
  dataPtr : Nat
  fields : SpecificFields
  deriving DecidableEq, Repr

/-- Modelled from the spec (section 4.1): `build` validates that the
supplied fields match the expected shape for the opcode and fails with
`InvalidParameters` when a required field is missing or out of the
opcode's valid range.  It is a function of its arguments alone: it takes
no queue state and allocates no queue slot. -/
def build (opcode : Opcode) (nsid : Nat) (dataPtr : Nat) (sf : SpecificFields) :
    Except ErrorKind CommandDescriptor :=
  if (requiredFields opcode).all (fieldOk sf) then
    .ok { opcode := opcode, nsid := nsid, dataPtr := dataPtr, fields := sf }
  else .error .InvalidParameters

/-! ## DMA Buffer Manager (spec section 4.2)

Modelled from the spec: `nvme.pyx` is absent, so the buffer pool and its
`acquire` / `release` operations follow spec sections 3 and 4.2. -/

/-- A DMA-capable host memory region: device-visible address and size. -/
structure Region where
  addr : Nat
  size : Nat
  deriving DecidableEq, Repr

/-- Buffer-pool state: the regions currently free and the regions bound
to an in-flight command identifier (spec section 3 ownership states). -/
structure BufferPool where
  free : List Region
  bound : List (Region × Nat)
  deriving DecidableEq, Repr

/-- Modelled from the spec (section 4.2): `acquire` hands out a free
region of the requested size, failing with `OutOfMemory` when none is
available. -/
def BufferPool.acquire (p : BufferPool) (size : Nat) :
    Except ErrorKind (Region × BufferPool) :=
  match p.free.find? (fun r => r.size == size) with
  | some r => .ok (r, { free := p.free.erase r, bound := p.bound })
  | none => .error .OutOfMemory

/-- Modelled from the spec (section 4.2): releasing a buffer still bound
to an in-flight command is a programming error reported as
`BufferStillInUse`; releasing a buffer bound to no command never raises
that error — a buffer that is already free is left as is, and a
caller-owned one returns to the front of the free list, where the next
`acquire` of the same size can reuse it. -/
def BufferPool.release (p : BufferPool) (r : Region) : Except ErrorKind BufferPool :=
  if p.bound.any (fun b => b.1 == r) then .error .BufferStillInUse
  else if p.free.contains r then .ok p
  else .ok { free := r :: p.free, bound := p.bound }

/-! ## Waiting with a timeout (spec section 4.4)

Modelled from the spec: `reap` never blocks; `wait(command_id, timeout)`
polls in a loop until the targeted command resolves or the timeout
elapses. -/

/-- Modelled from the spec (sections 4.3 and 4.4): poll the completion
ring once and release the identifiers of the reaped completions from the
in-flight table. -/
def QueuePair.pollResolve (qp : QueuePair) (ring : Nat → CompletionEntry) : QueuePair :=
  let out := qp.poll_completions ring
  { out.2 with inflight := out.2.inflight.filter fun c => !(out.1.any fun e => e.cid == c) }

/-- Modelled from the spec (section 4.4): `wait` polls once per remaining
timeout tick until the targeted command is no longer outstanding; when
the timeout elapses first it fails with `CommandTimeout`.  The final
Queue Pair state is returned alongside the result. -/
def QueuePair.wait (ring : Nat → CompletionEntry) (cid : Nat) :
    Nat → QueuePair → Except ErrorKind Unit × QueuePair
  | 0, qp => (.error .CommandTimeout, qp)
  | t + 1, qp =>
      let qp' := qp.pollResolve ring
      if cid ∈ qp'.inflight then QueuePair.wait ring cid t qp'
      else (.ok (), qp')

/-- Iterate `submit` `k` times, failing on the first error. -/
def QueuePair.submitN : Nat → QueuePair → Except ErrorKind QueuePair
  | 0, qp => .ok qp
  | k + 1, qp =>
      match qp.submit with
      | .ok out => QueuePair.submitN k out.2
      | .error e => .error e

/-! ## Command Dispatcher and Pending Results (spec sections 3 and 4.5)

Modelled from the spec: one Dispatcher call per logical operation;
a Pending Result is created at submission and resolved exactly once. -/

/-- A Pending Result handle: unresolved at submission, resolved with the
decoded outcome (spec section 3). -/
inductive PendingState where
  | unresolved
  | resolved (o : Outcome)
  deriving DecidableEq, Repr

/-- Resolve a Pending Result: a first resolution stores the outcome; a
handle already resolved is left unchanged.  The second component counts
the resolution events performed (1 or 0). -/
def resolvePending : PendingState → Outcome → PendingState × Nat
  | .unresolved, o => (.resolved o, 1)
  | .resolved o0, _ => (.resolved o0, 0)

/-- How the simulated device answers one command (spec section 8's
simulated-device scenarios): it completes with a status pair and a
result payload, or never completes. -/
inductive DeviceBehavior where
  | completes (sct sc : Nat) (payload : Nat)
  | silent
  deriving DecidableEq, Repr

/-- The observable trace of one Dispatcher call: the single caller-visible
result, the final state of the Pending Result when one was created, and
the number of resolution events performed on it. -/
structure DispatchTrace where
  result : Except ErrorKind Nat
  pending : Option PendingState
  resolutions : Nat
  deriving Repr

/-- Modelled from the spec (section 4.5): one Dispatcher call builds the
descriptor, acquires a DMA buffer, and submits on the Queue Pair — each
failure surfacing synchronously as exactly one error kind, with no
Pending Result created.  After a successful submission a Pending Result
is created and resolved once with the decoded device outcome (a device
that never completes resolves it with `CommandTimeout` after the
best-effort abort), and the resolved outcome is the caller's result. -/
def dispatch (op : Opcode) (nsid : Nat) (sf : SpecificFields) (pool : BufferPool)
    (bufSize : Nat) (qp : QueuePair) (dev : DeviceBehavior) : DispatchTrace :=
  match build op nsid 0 sf with
  | .error e => { result := .error e, pending := none, resolutions := 0 }
  | .ok _ =>
    match pool.acquire bufSize with
    | .error e => { result := .error e, pending := none, resolutions := 0 }
    | .ok _ =>
      match qp.submit with
      | .error e => { result := .error e, pending := none, resolutions := 0 }
      | .ok _ =>
        let outcome :=
          match dev with
          | .completes sct sc _ => decodeStatus sct sc
          | .silent => .failure .CommandTimeout
        let res := resolvePending .unresolved outcome
        let callerResult : Except ErrorKind Nat :=
          match dev with
          | .completes sct sc payload =>
              match decodeStatus sct sc with
              | .success => .ok payload
              | .failure e => .error e
          | .silent => .error .CommandTimeout
        { result := callerResult, pending := some res.1, resolutions := res.2 }

end PyNvme

namespace PyNvme

/-! ## Claims about the packaging script -/

/-- Claim C1: the visible source is only the packaging script: it binds no
definition for any operation named in the spec, and its only behaviour is
the single `setup` invocation for a Cython extension. -/
theorem setupPy_defines_no_engine_operation :
    (specOperations.all fun op => ! definesName setupPy op) = true ∧
    topLevelCalls setupPy = [setupCall] ∧
    kwarg setupCall "ext_modules" = some (.call "cythonize" [.str "nvme.pyx"]) :=
  ⟨rfl, rfl, rfl⟩

/-- Claim C10: the packaging script invokes `setup` with name `nvme`, version
`0.0.2`, and builds its extensions by `cythonize('nvme.pyx')`; the file
`nvme.pyx` is not in the source tree, so the cythonize step cannot
produce an extension module. -/
theorem setup_cythonize_source_missing :
    kwarg setupCall "name" = some (.str "nvme") ∧
    kwarg setupCall "version" = some (.str "0.0.2") ∧
    kwarg setupCall "ext_modules" = some (.call "cythonize" [.str "nvme.pyx"]) ∧
    "nvme.pyx" ∉ repoFiles ∧
    cythonizeResult repoFiles "nvme.pyx" = none := by
  refine ⟨rfl, rfl, rfl, ?_, ?_⟩ <;> decide

/-! ## Queue Pair invariants -/

theorem QueuePair.step_depth (qp : QueuePair) (op : QpOp) : (qp.step op).depth = qp.depth := by
  cases op with
  | submitOp =>
      unfold QueuePair.step QueuePair.submit
      by_cases hc : qp.inflight.length = qp.depth - 1 <;> simp [hc]
  | pollOp done => rfl

theorem QueuePair.step_inflight_le (qp : QueuePair) (op : QpOp)
    (h : qp.inflight.length ≤ qp.depth - 1) :
    (qp.step op).inflight.length ≤ qp.depth - 1 := by
  cases op with
  | submitOp =>
      unfold QueuePair.step QueuePair.submit
      by_cases hc : qp.inflight.length = qp.depth - 1
      · simp [hc]
      · have hlt : qp.inflight.length < qp.depth - 1 := Nat.lt_of_le_of_ne h hc
        simp [hc]
        omega
  | pollOp done =>
      exact le_trans (List.length_filter_le _ _) h

theorem QueuePair.run_depth (qp : QueuePair) (ops : List QpOp) :
    (qp.run ops).depth = qp.depth := by
  induction ops generalizing qp with
  | nil => rfl
  | cons op ops ih =>
      show ((qp.step op).run ops).depth = qp.depth
      rw [ih, QueuePair.step_depth]

theorem QueuePair.run_inflight_le (qp : QueuePair) (ops : List QpOp)
    (h : qp.inflight.length ≤ qp.depth - 1) :
    (qp.run ops).inflight.length ≤ (qp.run ops).depth - 1 := by
  induction ops generalizing qp with
  | nil => exact h
  | cons op ops ih =>
      show ((qp.step op).run ops).inflight.length ≤ ((qp.step op).run ops).depth - 1
      exact ih _ (by rw [QueuePair.step_depth]; exact qp.step_inflight_le op h)

/-- Claim C2: over every sequence of submit and poll operations on a Queue Pair
of configured depth `d`, the number of outstanding command identifiers
never exceeds `d - 1`, and `submit` fails with `QueueFull` exactly when
the outstanding count equals `d - 1`. -/
theorem submit_queueFull_boundary (d : Nat) (ops : List QpOp) :
    ((QueuePair.init d).run ops).inflight.length ≤ d - 1 ∧
    (((QueuePair.init d).run ops).submit = .error .QueueFull ↔
      ((QueuePair.init d).run ops).inflight.length = d - 1) := by
  have hd : ((QueuePair.init d).run ops).depth = d := QueuePair.run_depth _ _
  have hle := (QueuePair.init d).run_inflight_le ops (by simp [QueuePair.init])
  rw [hd] at hle
  refine ⟨hle, ?_⟩
  unfold QueuePair.submit
  rw [hd]
  split_ifs with h
  · simp [h]
  · simp [h]

/-! ## Phase-bit traversal -/

theorem QueuePair.traverse_eq :
    ∀ (n : Nat) (qp : QueuePair), qp.compHead < qp.depth → qp.compHead + n ≤ qp.depth →
    qp.traverse n =
      (List.range' qp.compHead n,
       (if qp.compHead + n = qp.depth then 1 else 0),
       (if qp.compHead + n = qp.depth
         then { qp with compHead := 0, phase := !qp.phase }
         else { qp with compHead := qp.compHead + n })) := by
  intro n
  induction n with
  | zero =>
      intro qp hlt _
      have hne : ¬ qp.compHead = qp.depth := by omega
      simp [QueuePair.traverse, hne]
  | succ n ih =>
      intro qp hlt hle
      by_cases hwrap : qp.compHead + 1 = qp.depth
      · have hn : n = 0 := by omega
        subst hn
        have hadv : qp.advanceHead = { qp with compHead := 0, phase := !qp.phase } := by
          unfold QueuePair.advanceHead
          simp [hwrap]
        simp [QueuePair.traverse, hadv, hwrap, List.range']
      · have hadv : qp.advanceHead = { qp with compHead := qp.compHead + 1 } := by
          unfold QueuePair.advanceHead
          simp [hwrap]
        have ihh := ih { qp with compHead := qp.compHead + 1 } (by simp; omega) (by simp; omega)
        have harith : qp.compHead + 1 + n = qp.compHead + (n + 1) := by omega
        rw [harith] at ihh
        simp only [QueuePair.traverse, hadv, ihh, hwrap, if_false, List.range'_succ]
        rw [Nat.zero_add]

/-- Claim C3: after exactly one full traversal of a completion ring of depth
`D`, the Queue Pair's expected phase bit has toggled exactly once (one
toggle performed, final phase the negation of the initial one), and each
entry numbered `0 .. D-1` has been reaped exactly once. -/
theorem phase_toggles_once_per_full_traversal (D : Nat) (hD : 1 ≤ D) (qp : QueuePair)
    (hdepth : qp.depth = D) (hhead : qp.compHead = 0) :
    (qp.traverse D).2.1 = 1 ∧
    (qp.traverse D).2.2.phase = !qp.phase ∧
    (∀ i, i < D → (qp.traverse D).1.count i = 1) ∧
    (∀ i, D ≤ i → (qp.traverse D).1.count i = 0) := by
  have h := QueuePair.traverse_eq D qp (by omega) (by omega)
  rw [hhead, hdepth] at h
  simp only [Nat.zero_add] at h
  rw [h]
  have hrange : List.range' 0 D = List.range D := (List.range_eq_range' D).symm
  refine ⟨by simp, by simp, ?_, ?_⟩
  · intro i hi
    rw [hrange]
    exact List.count_eq_one_of_mem (List.nodup_range D) (List.mem_range.mpr hi)
  · intro i hi
    rw [hrange]
    exact List.count_eq_zero_of_not_mem (by simpa using Nat.not_lt.mpr hi)

/-- Concrete instance of `phase_toggles_once_per_full_traversal` at depth 3. -/
theorem phase_toggle_traversal_example :
    ((QueuePair.init 3).traverse 3).2.1 = 1 ∧
    ((QueuePair.init 3).traverse 3).2.2.phase = !(QueuePair.init 3).phase ∧
    (∀ i, i < 3 → ((QueuePair.init 3).traverse 3).1.count i = 1) ∧
    (∀ i, 3 ≤ i → ((QueuePair.init 3).traverse 3).1.count i = 0) :=
  phase_toggles_once_per_full_traversal 3 (by decide) (QueuePair.init 3) rfl rfl

/-! ## Completion polling -/

theorem QueuePair.advanceHead_depth (qp : QueuePair) : qp.advanceHead.depth = qp.depth := by
  unfold QueuePair.advanceHead
  split_ifs <;> rfl

theorem QueuePair.advanceHead_compHead_lt (qp : QueuePair) (h : qp.compHead < qp.depth) :
    qp.advanceHead.compHead < qp.advanceHead.depth := by
  unfold QueuePair.advanceHead
  split_ifs with hw
  · dsimp only
    omega
  · dsimp only
    omega

theorem QueuePair.entryAt_advanceHead (qp : QueuePair) (ring : Nat → CompletionEntry)
    (i : Nat) (h : qp.compHead < qp.depth) :
    qp.advanceHead.entryAt ring i = qp.entryAt ring (i + 1) := by
  unfold QueuePair.advanceHead QueuePair.entryAt
  split_ifs with hw
  · dsimp only
    rw [Nat.zero_add]
    have h1 : qp.compHead + (i + 1) = qp.depth + i := by omega
    rw [h1, Nat.add_mod_left]
  · dsimp only
    have h1 : qp.compHead + 1 + i = qp.compHead + (i + 1) := by omega
    rw [h1]

theorem QueuePair.expPhase_advanceHead (qp : QueuePair) (i : Nat)
    (h : qp.compHead < qp.depth) (hi : i < qp.depth) :
    qp.advanceHead.expPhase i = qp.expPhase (i + 1) := by
  unfold QueuePair.advanceHead QueuePair.expPhase
  by_cases hw : qp.compHead + 1 = qp.depth
  · rw [if_pos hw]
    dsimp only
    rw [if_pos (show 0 + i < qp.depth by omega),
      if_neg (show ¬ qp.compHead + (i + 1) < qp.depth by omega)]
  · rw [if_neg hw]
    dsimp only
    have h1 : qp.compHead + 1 + i = qp.compHead + (i + 1) := by omega
    rw [h1]

theorem QueuePair.entryAt_zero (qp : QueuePair) (ring : Nat → CompletionEntry)
    (h : qp.compHead < qp.depth) : qp.entryAt ring 0 = ring qp.compHead := by
  unfold QueuePair.entryAt
  rw [Nat.add_zero, Nat.mod_eq_of_lt h]

theorem QueuePair.expPhase_zero (qp : QueuePair) (h : qp.compHead < qp.depth) :
    qp.expPhase 0 = qp.phase := by
  unfold QueuePair.expPhase
  rw [Nat.add_zero, if_pos h]

theorem QueuePair.pollAux_spec (ring : Nat → CompletionEntry) :
    ∀ (n : Nat) (qp : QueuePair), qp.compHead < qp.depth → n ≤ qp.depth →
    ((QueuePair.pollAux ring n qp).1.length ≤ n) ∧
    (∀ i (hi : i < (QueuePair.pollAux ring n qp).1.length),
        (QueuePair.pollAux ring n qp).1.get ⟨i, hi⟩ = qp.entryAt ring i ∧
        (qp.entryAt ring i).phase = qp.expPhase i) ∧
    ((QueuePair.pollAux ring n qp).1.length < n →
        (qp.entryAt ring (QueuePair.pollAux ring n qp).1.length).phase ≠
          qp.expPhase (QueuePair.pollAux ring n qp).1.length) := by
  intro n
  induction n with
  | zero =>
      intro qp hlt _
      refine ⟨Nat.le_refl 0, ?_, ?_⟩
      · intro i hi
        simp [QueuePair.pollAux] at hi
      · intro hlen
        simp [QueuePair.pollAux] at hlen
  | succ n ih =>
      intro qp hlt hle
      by_cases hm : (ring qp.compHead).phase = qp.phase
      · have hadv := qp.advanceHead_compHead_lt hlt
        have hdep : qp.advanceHead.depth = qp.depth := qp.advanceHead_depth
        have ihh := ih qp.advanceHead hadv (by rw [hdep]; omega)
        have heq : QueuePair.pollAux ring (n + 1) qp =
            ((ring qp.compHead) :: (QueuePair.pollAux ring n qp.advanceHead).1,
              (QueuePair.pollAux ring n qp.advanceHead).2) := by
          simp [QueuePair.pollAux, hm]
        rw [heq]
        obtain ⟨ihlen, ihget, ihmax⟩ := ihh
        refine ⟨by simpa using Nat.succ_le_succ ihlen, ?_, ?_⟩
        · intro i hi
          match i with
          | 0 =>
              refine ⟨?_, ?_⟩
              · simp [qp.entryAt_zero ring hlt]
              · rw [qp.entryAt_zero ring hlt, qp.expPhase_zero hlt]
                exact hm
          | j + 1 =>
              have hj : j < (QueuePair.pollAux ring n qp.advanceHead).1.length := by
                simpa using Nat.lt_of_succ_lt_succ hi
              have hjd : j < qp.depth := by omega
              obtain ⟨hg, hp⟩ := ihget j hj
              rw [qp.entryAt_advanceHead ring j hlt] at hg hp
              rw [qp.expPhase_advanceHead j hlt hjd] at hp
              exact ⟨by simpa using hg, hp⟩
        · intro hlen
          simp only [List.length_cons] at hlen
          have hlen' : (QueuePair.pollAux ring n qp.advanceHead).1.length < n :=
            Nat.lt_of_succ_lt_succ hlen
          have hmax := ihmax hlen'
          have hld : (QueuePair.pollAux ring n qp.advanceHead).1.length < qp.depth := by omega
          rw [qp.entryAt_advanceHead ring _ hlt] at hmax
          rw [qp.expPhase_advanceHead _ hlt hld] at hmax
          simpa using hmax
      · have heq : QueuePair.pollAux ring (n + 1) qp = ([], qp) := by
          simp [QueuePair.pollAux, hm]
        rw [heq]
        refine ⟨by simp, ?_, ?_⟩
        · intro i hi
          simp at hi
        · intro _
          simp only [List.length_nil]
          rw [qp.entryAt_zero ring hlt, qp.expPhase_zero hlt]
          exact hm

/-- Claim C4: `poll_completions` returns, starting at the current head, exactly
the maximal prefix of ring entries whose phase bit matches the expected
phase (stopping at the first mismatch), in the order the device wrote
them; in particular the first returned entry — the first caller-visible
result to be resolved — is the entry the device wrote at the head,
regardless of submission order. -/
theorem poll_completions_maximal_matching (qp : QueuePair) (ring : Nat → CompletionEntry)
    (hhead : qp.compHead < qp.depth) :
    ((qp.poll_completions ring).1.length ≤ qp.depth) ∧
    (∀ i (hi : i < (qp.poll_completions ring).1.length),
        (qp.poll_completions ring).1.get ⟨i, hi⟩ = qp.entryAt ring i ∧
        (qp.entryAt ring i).phase = qp.expPhase i) ∧
    ((qp.poll_completions ring).1.length < qp.depth →
        (qp.entryAt ring (qp.poll_completions ring).1.length).phase ≠
          qp.expPhase (qp.poll_completions ring).1.length) ∧
    (∀ h0 : 0 < (qp.poll_completions ring).1.length,
        (qp.poll_completions ring).1.get ⟨0, h0⟩ = ring qp.compHead) := by
  obtain ⟨h1, h2, h3⟩ := QueuePair.pollAux_spec ring qp.depth qp hhead (Nat.le_refl _)
  refine ⟨h1, h2, h3, ?_⟩
  intro h0
  have := (h2 0 h0).1
  rwa [qp.entryAt_zero ring hhead] at this

/-- Concrete instance of `poll_completions_maximal_matching`: depth 2,
both entries fresh. -/
theorem poll_completions_example :
    (0 : Nat) < (2 : Nat) ∧
    (((QueuePair.init 2).poll_completions fun i => ⟨0, i, true, 0, 0⟩).1.length ≤ 2 ∧
      (∀ i (hi : i < ((QueuePair.init 2).poll_completions fun i => ⟨0, i, true, 0, 0⟩).1.length),
          (((QueuePair.init 2).poll_completions fun i => ⟨0, i, true, 0, 0⟩).1.get ⟨i, hi⟩ =
            (QueuePair.init 2).entryAt (fun i => ⟨0, i, true, 0, 0⟩) i ∧
          ((QueuePair.init 2).entryAt (fun i => ⟨0, i, true, 0, 0⟩) i).phase =
            (QueuePair.init 2).expPhase i)) ∧
      ((((QueuePair.init 2).poll_completions fun i => ⟨0, i, true, 0, 0⟩).1.length < 2 →
          ((QueuePair.init 2).entryAt (fun i => ⟨0, i, true, 0, 0⟩)
              ((QueuePair.init 2).poll_completions fun i => ⟨0, i, true, 0, 0⟩).1.length).phase ≠
            (QueuePair.init 2).expPhase
              ((QueuePair.init 2).poll_completions fun i => ⟨0, i, true, 0, 0⟩).1.length)) ∧
      (∀ h0 : 0 < ((QueuePair.init 2).poll_completions fun i => ⟨0, i, true, 0, 0⟩).1.length,
          ((QueuePair.init 2).poll_completions fun i => ⟨0, i, true, 0, 0⟩).1.get ⟨0, h0⟩ =
            (fun i => (⟨0, i, true, 0, 0⟩ : CompletionEntry)) (QueuePair.init 2).compHead)) :=
  ⟨by decide,
    poll_completions_maximal_matching (QueuePair.init 2) (fun i => ⟨0, i, true, 0, 0⟩) (by decide)⟩

/-! ## Status decoding -/

/-- Claim C5: the Status Decoder maps a (generic, namespace-not-found) status
to `InvalidNamespace`, and every (type, code) pair outside the known
mapping to `UnknownDeviceError` carrying exactly that raw pair. -/
theorem decode_namespace_not_found_and_unknown :
    decodeStatus sctGeneric scNamespaceNotFound = .failure .InvalidNamespace ∧
    ∀ sct sc, (sct, sc) ∉ knownStatusPairs →
      decodeStatus sct sc = .failure (.UnknownDeviceError sct sc) := by
  refine ⟨rfl, ?_⟩
  intro sct sc h
  simp only [knownStatusPairs, List.mem_cons, List.not_mem_nil, or_false, Prod.mk.injEq,
    not_or] at h
  unfold decodeStatus
  split_ifs with h1 h2 h3 h4 h5
  · exact absurd ⟨h1.1, h1.2⟩ h.1
  · exact absurd ⟨h2.1, h2.2⟩ h.2.1
  · exact absurd ⟨h3.1, h3.2⟩ h.2.2.1
  · exact absurd ⟨h4.1, h4.2⟩ h.2.2.2.1
  · exact absurd ⟨h5.1, h5.2⟩ h.2.2.2.2
  · rfl

/-- Concrete instance: the pair (7, 99) is outside the known mapping and
decodes to `UnknownDeviceError 7 99`. -/
theorem decode_unknown_example :
    ((7 : Nat), (99 : Nat)) ∉ knownStatusPairs ∧
    decodeStatus 7 99 = .failure (.UnknownDeviceError 7 99) :=
  ⟨by decide, decode_namespace_not_found_and_unknown.2 7 99 (by decide)⟩

/-! ## Descriptor building -/

theorem fieldOk_eq_false_iff (sf : SpecificFields) (r : FieldName × Nat) :
    fieldOk sf r = false ↔
      sf.get r.1 = none ∨ ∃ v, sf.get r.1 = some v ∧ r.2 ≤ v := by
  unfold fieldOk
  cases hg : sf.get r.1 with
  | none => simp [hg]
  | some v => simp [hg, Nat.not_lt]

/-- Claim C6: `build` fails with `InvalidParameters` exactly when a required
field for the opcode is missing or outside the opcode's valid range; the
builder is a function of its arguments alone, taking no queue state. -/
theorem build_invalidParameters_iff (op : Opcode) (nsid dataPtr : Nat)
    (sf : SpecificFields) :
    build op nsid dataPtr sf = .error .InvalidParameters ↔
      ∃ r ∈ requiredFields op,
        sf.get r.1 = none ∨ ∃ v, sf.get r.1 = some v ∧ r.2 ≤ v := by
  unfold build
  split_ifs with h
  · rw [List.all_eq_true] at h
    constructor
    · intro hc
      exact hc.elim
    · rintro ⟨r, hr, hbad⟩
      have hf := (fieldOk_eq_false_iff sf r).mpr hbad
      rw [h r hr] at hf
      exact Bool.noConfusion hf
  · rw [List.all_eq_true] at h
    push_neg at h
    obtain ⟨r, hr, hf⟩ := h
    exact iff_of_true rfl ⟨r, hr, (fieldOk_eq_false_iff sf r).mp (Bool.eq_false_iff.mpr hf)⟩

/-- Concrete instance: Identify with no CNS sub-selector supplied fails
with `InvalidParameters`. -/
theorem build_invalidParameters_example :
    build Opcode.identify 1 0 {} = .error .InvalidParameters :=
  (build_invalidParameters_iff Opcode.identify 1 0 {}).mpr
    ⟨(FieldName.cns, 256), by simp [requiredFields], Or.inl rfl⟩

/-! ## Buffer release -/

theorem BufferPool.bound_any_iff (p : BufferPool) (r : Region) :
    (p.bound.any fun b => b.1 == r) = true ↔ ∃ cid, (r, cid) ∈ p.bound := by
  rw [List.any_eq_true]
  constructor
  · rintro ⟨b, hb, hbr⟩
    rw [beq_iff_eq] at hbr
    refine ⟨b.2, ?_⟩
    have hbe : (r, b.2) = b := by rw [← hbr]
    rwa [hbe]
  · rintro ⟨cid, hc⟩
    exact ⟨(r, cid), hc, by simp⟩

/-- Claim C7: `release` fails with `BufferStillInUse` exactly when the buffer
is still bound to an in-flight command; on a buffer bound to no command
it never raises `BufferStillInUse`; and an `acquire` of the same size
immediately after a `release` reuses the freed region. -/
theorem release_buffer_semantics (p : BufferPool) (r : Region) :
    (p.release r = .error .BufferStillInUse ↔ ∃ cid, (r, cid) ∈ p.bound) ∧
    ((∀ cid, (r, cid) ∉ p.bound) → ∃ p', p.release r = .ok p') ∧
    ((∀ cid, (r, cid) ∉ p.bound) → r ∉ p.free →
      p.release r = .ok { free := r :: p.free, bound := p.bound } ∧
      BufferPool.acquire { free := r :: p.free, bound := p.bound } r.size =
        .ok (r, { free := p.free, bound := p.bound })) := by
  refine ⟨?_, ?_, ?_⟩
  · unfold BufferPool.release
    split_ifs with hb hf
    · exact iff_of_true rfl ((p.bound_any_iff r).mp hb)
    · exact iff_of_false (fun hc => by cases hc)
        (fun he => hb ((p.bound_any_iff r).mpr he))
    · exact iff_of_false (fun hc => by cases hc)
        (fun he => hb ((p.bound_any_iff r).mpr he))
  · intro hnb
    unfold BufferPool.release
    have hb : ¬ (p.bound.any fun b => b.1 == r) = true := by
      rw [p.bound_any_iff r]
      exact not_exists.mpr hnb
    rw [if_neg hb]
    split_ifs with hf
    · exact ⟨p, rfl⟩
    · exact ⟨_, rfl⟩
  · intro hnb hfree
    have hb : ¬ (p.bound.any fun b => b.1 == r) = true := by
      rw [p.bound_any_iff r]
      exact not_exists.mpr hnb
    have hfc : ¬ p.free.contains r = true := by simpa using hfree
    constructor
    · unfold BufferPool.release
      rw [if_neg hb, if_neg hfc]
    · unfold BufferPool.acquire
      have hfind : List.find? (fun x => x.size == r.size) (r :: p.free) = some r := by
        simp [List.find?]
      dsimp only
      rw [hfind]
      dsimp only
      rw [List.erase_cons_head]

/-- Concrete instance of `release_buffer_semantics`: a caller-owned
buffer, bound to no command, is released and immediately reacquired. -/
theorem release_buffer_example :
    (∀ cid, ((⟨4096, 512⟩ : Region), cid) ∉ (⟨[⟨0, 512⟩], []⟩ : BufferPool).bound) ∧
    (⟨4096, 512⟩ : Region) ∉ (⟨[⟨0, 512⟩], []⟩ : BufferPool).free ∧
    ((⟨[⟨0, 512⟩], []⟩ : BufferPool).release ⟨4096, 512⟩ =
      .ok { free := ⟨4096, 512⟩ :: (⟨[⟨0, 512⟩], []⟩ : BufferPool).free, bound := [] } ∧
    BufferPool.acquire
        { free := ⟨4096, 512⟩ :: (⟨[⟨0, 512⟩], []⟩ : BufferPool).free, bound := [] }
        (⟨4096, 512⟩ : Region).size =
      .ok (⟨4096, 512⟩, { free := (⟨[⟨0, 512⟩], []⟩ : BufferPool).free, bound := [] })) :=
  ⟨fun _ => List.not_mem_nil _, by decide,
    (release_buffer_semantics ⟨[⟨0, 512⟩], []⟩ ⟨4096, 512⟩).2.2
      (fun _ => List.not_mem_nil _) (by decide)⟩

/-! ## Waiting and timeouts -/

theorem QueuePair.poll_completions_stale (qp : QueuePair) (ring : Nat → CompletionEntry)
    (h : (ring qp.compHead).phase ≠ qp.phase) :
    qp.poll_completions ring = ([], qp) := by
  unfold QueuePair.poll_completions
  cases hd : qp.depth with
  | zero => rfl
  | succ n =>
      unfold QueuePair.pollAux
      simp [h]

theorem QueuePair.pollResolve_stale (qp : QueuePair) (ring : Nat → CompletionEntry)
    (h : (ring qp.compHead).phase ≠ qp.phase) :
    qp.pollResolve ring = qp := by
  unfold QueuePair.pollResolve
  rw [qp.poll_completions_stale ring h]
  simp

theorem QueuePair.wait_stale (ring : Nat → CompletionEntry) (cid : Nat) (qp : QueuePair)
    (hcid : cid ∈ qp.inflight) (h : (ring qp.compHead).phase ≠ qp.phase) :
    ∀ t, QueuePair.wait ring cid t qp = (.error .CommandTimeout, qp) := by
  intro t
  induction t with
  | zero => rfl
  | succ t ih =>
      unfold QueuePair.wait
      rw [qp.pollResolve_stale ring h, if_pos hcid]
      exact ih

theorem QueuePair.submitN_ok (k : Nat) :
    ∀ (qp : QueuePair), qp.inflight.length + k ≤ qp.depth - 1 →
    ∃ qp', QueuePair.submitN k qp = .ok qp' ∧
      qp'.inflight.length = qp.inflight.length + k := by
  induction k with
  | zero =>
      intro qp _
      exact ⟨qp, rfl, by omega⟩
  | succ k ih =>
      intro qp h
      have hne : ¬ qp.inflight.length = qp.depth - 1 := by omega
      have hsub : qp.submit = .ok (qp.nextId,
          { qp with nextId := qp.nextId + 1, inflight := qp.nextId :: qp.inflight }) := by
        unfold QueuePair.submit
        rw [if_neg hne]
      unfold QueuePair.submitN
      rw [hsub]
      obtain ⟨qp', h1, h2⟩ :=
        ih { qp with nextId := qp.nextId + 1, inflight := qp.nextId :: qp.inflight }
          (by simp; omega)
      refine ⟨qp', h1, ?_⟩
      simp at h2
      omega

/-- Claim C8: when a command's completion never arrives within the timeout,
`wait` fails with `CommandTimeout` leaving the Queue Pair state intact:
the command is still outstanding, and the engine still accepts further
submissions up to queue capacity afterward. -/
theorem wait_timeout_state_preserved (ring : Nat → CompletionEntry) (qp : QueuePair)
    (cid : Nat) (t : Nat) (hcid : cid ∈ qp.inflight)
    (hdev : (ring qp.compHead).phase ≠ qp.phase) :
    QueuePair.wait ring cid t qp = (.error .CommandTimeout, qp) ∧
    cid ∈ (QueuePair.wait ring cid t qp).2.inflight ∧
    (∀ k, (QueuePair.wait ring cid t qp).2.inflight.length + k ≤
        (QueuePair.wait ring cid t qp).2.depth - 1 →
      ∃ qp', QueuePair.submitN k (QueuePair.wait ring cid t qp).2 = .ok qp' ∧
        qp'.inflight.length = (QueuePair.wait ring cid t qp).2.inflight.length + k) := by
  have hw := QueuePair.wait_stale ring cid qp hcid hdev t
  refine ⟨hw, ?_, ?_⟩
  · rw [hw]
    exact hcid
  · intro k hk
    rw [hw] at hk ⊢
    exact QueuePair.submitN_ok k qp hk

/-- Concrete instance of `wait_timeout_state_preserved`: depth 4, one
outstanding command, a device that never completes, timeout 5. -/
theorem wait_timeout_example :
    (0 : Nat) ∈ (⟨4, 1, 0, true, [0]⟩ : QueuePair).inflight ∧
    ((fun _ => (⟨0, 0, false, 0, 0⟩ : CompletionEntry))
        (⟨4, 1, 0, true, [0]⟩ : QueuePair).compHead).phase ≠
      (⟨4, 1, 0, true, [0]⟩ : QueuePair).phase ∧
    QueuePair.wait (fun _ => ⟨0, 0, false, 0, 0⟩) 0 5 ⟨4, 1, 0, true, [0]⟩ =
      (.error .CommandTimeout, ⟨4, 1, 0, true, [0]⟩) :=
  ⟨by decide, by decide,
    (wait_timeout_state_preserved (fun _ => ⟨0, 0, false, 0, 0⟩) ⟨4, 1, 0, true, [0]⟩ 0 5
      (by decide) (by decide)).1⟩

/-! ## Dispatcher outcomes -/

/-- Claim C9: every Dispatcher call returns exactly one outcome — a decoded
success payload exactly when no error kind is returned — and whenever a
Pending Result was created it is resolved exactly once. -/
theorem dispatch_single_outcome (op : Opcode) (nsid : Nat) (sf : SpecificFields)
    (pool : BufferPool) (bufSize : Nat) (qp : QueuePair) (dev : DeviceBehavior) :
    ((∃ p, (dispatch op nsid sf pool bufSize qp dev).result = .ok p) ↔
      ¬ ∃ e, (dispatch op nsid sf pool bufSize qp dev).result = .error e) ∧
    (∀ ps, (dispatch op nsid sf pool bufSize qp dev).pending = some ps →
      (dispatch op nsid sf pool bufSize qp dev).resolutions = 1 ∧
      ∃ o, ps = .resolved o) := by
  unfold dispatch
  cases hb : build op nsid 0 sf with
  | error e =>
      refine ⟨iff_of_false ?_ ?_, ?_⟩
      · rintro ⟨p, hp⟩
        exact Except.noConfusion hp
      · intro hno
        exact hno ⟨e, rfl⟩
      · intro ps hps
        exact Option.noConfusion hps
  | ok d =>
  cases ha : pool.acquire bufSize with
  | error e =>
      refine ⟨iff_of_false ?_ ?_, ?_⟩
      · rintro ⟨p, hp⟩
        exact Except.noConfusion hp
      · intro hno
        exact hno ⟨e, rfl⟩
      · intro ps hps
        exact Option.noConfusion hps
  | ok buf =>
  cases hs : qp.submit with
  | error e =>
      refine ⟨iff_of_false ?_ ?_, ?_⟩
      · rintro ⟨p, hp⟩
        exact Except.noConfusion hp
      · intro hno
        exact hno ⟨e, rfl⟩
      · intro ps hps
        exact Option.noConfusion hps
  | ok sub =>
  cases dev with
  | silent =>
      refine ⟨iff_of_false ?_ ?_, ?_⟩
      · rintro ⟨p, hp⟩
        exact Except.noConfusion hp
      · intro hno
        exact hno ⟨.CommandTimeout, rfl⟩
      · intro ps hps
        refine ⟨rfl, ⟨.failure .CommandTimeout, ?_⟩⟩
        exact (Option.some.injEq _ _ ▸ hps).symm ▸ rfl
  | completes sct sc payload =>
      cases hd : decodeStatus sct sc with
      | success =>
          refine ⟨iff_of_true ⟨payload, by simp [hd]⟩ ?_, ?_⟩
          · rintro ⟨e, he⟩
            simp [hd] at he
          · intro ps hps
            simp [hd, resolvePending] at hps ⊢
            exact ⟨.success, hps.symm⟩
      | failure e =>
          refine ⟨iff_of_false ?_ ?_, ?_⟩
          · rintro ⟨p, hp⟩
            simp [hd] at hp
          · intro hno
            exact hno ⟨e, by simp [hd]⟩
          · intro ps hps
            simp [hd, resolvePending] at hps ⊢
            exact ⟨.failure e, hps.symm⟩

/-- Concrete instance of `dispatch_single_outcome`: a Flush command on a
fresh Queue Pair against a device completing with success status. -/
theorem dispatch_single_outcome_example :
    ((∃ p, (dispatch .flush 1 {} ⟨[⟨0, 16⟩], []⟩ 16 (QueuePair.init 2)
        (.completes 0 0 42)).result = .ok p) ↔
      ¬ ∃ e, (dispatch .flush 1 {} ⟨[⟨0, 16⟩], []⟩ 16 (QueuePair.init 2)
        (.completes 0 0 42)).result = .error e) ∧
    (∀ ps, (dispatch .flush 1 {} ⟨[⟨0, 16⟩], []⟩ 16 (QueuePair.init 2)
        (.completes 0 0 42)).pending = some ps →
      (dispatch .flush 1 {} ⟨[⟨0, 16⟩], []⟩ 16 (QueuePair.init 2)
        (.completes 0 0 42)).resolutions = 1 ∧ ∃ o, ps = .resolved o) :=
  dispatch_single_outcome .flush 1 {} ⟨[⟨0, 16⟩], []⟩ 16 (QueuePair.init 2)
    (.completes 0 0 42)

end PyNvme
